import Mathlib

/-!
# motor-control: command handlers, command table and serial tasks of `src/main.c`

A shallow embedding of the AT-command part of `main.c`:

* the module-level variables `isInCommandMode`, `g_passcode`, `g_dutycycle` and the
  text written to standard output form the record `Sys`;
* a C string (`const char *`) is the list of its characters before the terminating
  NUL, a possibly-NULL pointer to one is an `Option`;
* `int` is `Int` kept inside `[-2^31, 2^31)`, `uint32_t` is `Int` reduced modulo `2^32`;
* the five handlers, the table `commands`, one polling cycle of `vUARTEchoTask` and of
  `escapeSequenceTask`, and the keypad entry loop of `vPIDTask` are translated
  statement by statement.
-/

namespace MotorControl

/-! ## C library functions used by the handlers -/

/-- The smallest value of the 32-bit `int` / `long` of the target. -/
def INT_MIN : Int := -2147483648

/-- The largest value of the 32-bit `int` / `long` of the target. -/
def INT_MAX : Int := 2147483647

/-- Conversion of an integer to `uint32_t`: reduction modulo `2^32`, a value in
`[0, 2^32)`. -/
def toUInt32 (v : Int) : Int := v % 4294967296

/-- Conversion of an integer to the 32-bit `int`: two's complement wrap-around. -/
def toInt32 (v : Int) : Int := (v + 2147483648) % 4294967296 - 2147483648

/-- The libc predicate `isspace` in the C locale. -/
def isspace (c : Char) : Bool :=
  c = ' ' || c = '\t' || c = '\n' || c = '\x0b' || c = '\x0c' || c = '\r'

/-- The libc predicate `isdigit`. -/
def isdigit (c : Char) : Bool := decide ('0' ≤ c) && decide (c ≤ '9')

/-- The value of a decimal digit character, `c - '0'`. -/
def digitVal (c : Char) : Nat := c.toNat - 48

/-- The digit loop of `strtol`: accumulates the leading decimal digits of the string
onto `acc` and stops at the first character that is not a digit. -/
def accDigits : Nat → List Char → Nat
  | acc, [] => acc
  | acc, c :: cs => if isdigit c then accDigits (acc * 10 + digitVal c) cs else acc

/-- The result range of `strtol`: a value outside `long` is replaced by `LONG_MAX`
or `LONG_MIN` (`long` is 32 bits wide on the ARM target). -/
def clampLong (v : Int) : Int :=
  if v < INT_MIN then INT_MIN else if INT_MAX < v then INT_MAX else v

/-- The libc function `strtol(s, NULL, 10)`: leading white space is skipped, an optional
sign is read, then the longest run of decimal digits; no digits give 0. -/
def strtol (s : List Char) : Int :=
  match s.dropWhile isspace with
  | '-' :: rest => clampLong (-(Int.ofNat (accDigits 0 rest)))
  | '+' :: rest => clampLong (Int.ofNat (accDigits 0 rest))
  | rest => clampLong (Int.ofNat (accDigits 0 rest))

/-- The libc function `atoi`, which is `(int) strtol(s, NULL, 10)`; `int` and `long`
have the same width on the target, so the cast changes nothing. -/
def atoi (s : List Char) : Int := toInt32 (strtol s)

/-- The libc function `strlen`; a C string is represented by its characters before
the terminating NUL, so it is the length of the list. -/
def strlen (s : List Char) : Nat := s.length

/-! ## The module state -/

/-- The module-level variables the handlers and tasks read and write, with the text
sent to standard output (`printf`, `write(STDOUT_FILENO, ..)`) in order. -/
structure Sys where
  /-- Variable `isInCommandMode` (declared by `atcmd.h`), the mode flag. -/
  isInCommandMode : Bool
  /-- Variable `int g_passcode`, 349 at start. -/
  g_passcode : Int
  /-- Variable `volatile int g_dutycycle`, 16 at start. -/
  g_dutycycle : Int
  /-- Everything printed so far, oldest first. -/
  out : List String
deriving DecidableEq, Repr

/-- The state at program start: `g_passcode = 349`, `g_dutycycle = 16`, mode Normal. -/
def Sys.init : Sys :=
  { isInCommandMode := false, g_passcode := 349, g_dutycycle := 16, out := [] }

/-- The effect of `printf` with the already formatted text. -/
def Sys.printf (s : Sys) (text : String) : Sys := { s with out := s.out ++ [text] }

/-! ## The command handlers

Every handler has the C signature `uint8_t h(void *args, const char *cmdArgs)`; it
discards `args` (`(void)args;`), so the embedding takes `cmdArgs` and the state and
returns the `uint8_t` result with the new state. -/

/-- Type of an embedded handler. -/
abbrev Handler := Option (List Char) → Sys → Nat × Sys

/-- Function `handleResume`: clears the mode flag, prints, returns 1. -/
def handleResume : Handler := fun _cmdArgs s =>
  let s := { s with isInCommandMode := false }
  let s := s.printf "Exit command mode\n"
  (1, s)

/-- Function `handleHello`: prints a greeting, returns 1. -/
def handleHello : Handler := fun cmdArgs s =>
  match cmdArgs with
  | some a => (1, s.printf ("Hello, " ++ String.mk a ++ "!\n"))
  | none => (1, s.printf "Hello!\n")

/-- Function `handlePasscode`: prints `g_passcode`, returns 1. -/
def handlePasscode : Handler := fun _cmdArgs s =>
  (1, s.printf ("Current passcode: " ++ toString s.g_passcode ++ "\n"))

/-- Function `handlePasscodeChange`: when `cmdArgs` is not NULL and
`strlen(cmdArgs) <= 12`, stores `atoi(cmdArgs)` in `g_passcode` and returns 1;
otherwise prints one of two messages and returns 0. -/
def handlePasscodeChange : Handler := fun cmdArgs s =>
  match cmdArgs with
  | some a =>
    if strlen a ≤ 12 then
      let new_passcode := atoi a
      let s := { s with g_passcode := new_passcode }
      (1, s.printf "Passcode changed successfully.\n")
    else
      (0, s.printf "Invalid passcode (string up to 12 digits).\n")
  | none => (0, s.printf "No passcode provided.\n")

/-- Function `handleDutyCycleChange`: `uint32_t new_duty = atoi(cmdArgs)`; a value of
at most 16 is stored in `g_dutycycle` (converted back to `int`) and 1 is returned;
otherwise a message is printed and 0 returned. -/
def handleDutyCycleChange : Handler := fun cmdArgs s =>
  match cmdArgs with
  | some a =>
    let new_duty := toUInt32 (atoi a)
    if new_duty ≤ 16 then
      let s := { s with g_dutycycle := toInt32 new_duty }
      (1, s.printf ("New Duty for PWM: " ++ toString new_duty ++ "\n"))
    else
      (0, s.printf "Duty cycle exceeds PWM period.\n")
  | none => (0, s.printf "No value provided.\n")

/-! ## The command table -/

/-- One entry of the table, `atcmd_t`: the command name and the handler bound to it
(the third member, the handler context, is `NULL` in every entry and no handler
reads it). -/
structure atcmd_t where
  /-- The command name, first member of the initialiser. -/
  name : List Char
  /-- The handler, second member of the initialiser. -/
  handler : Handler

/-- The table `commands` of `main.c`, in source order. -/
def commands : List atcmd_t :=
  [ { name := "RESUME".toList, handler := handleResume },
    { name := "HELLO".toList, handler := handleHello },
    { name := "PASSCODE?".toList, handler := handlePasscode },
    { name := "PASSCODE".toList, handler := handlePasscodeChange },
    { name := "DUTY".toList, handler := handleDutyCycleChange } ]

/-- Modelled from the spec: the case-insensitive comparison of two command names used
by the Dispatcher of section 4.3 ("case-insensitive exact match"); the comparing code
(`atcmd_parse`, declared by `atcmd.h`) is not among the sources. Two names match when
they are equal after mapping every ASCII letter to upper case. -/
def sameName (a b : List Char) : Bool := a.map Char.toUpper = b.map Char.toUpper

/-- Modelled from the spec: the Dispatcher's table lookup of sections 3 and 4.3 (a
"linear scan by name" over the "ordered sequence" of entries, "case-insensitive exact
match"); the lookup code (`atcmd_parse`) is not among the sources. The first entry in
table order whose name matches is selected. -/
def lookup (name : List Char) : List atcmd_t → Option atcmd_t
  | [] => none
  | e :: es => if sameName e.name name then some e else lookup name es

/-! ## The serial tasks

One pass through the body of the endless loop of each task. What the external
functions answer during the pass is an argument of the embedding; the calls the pass
makes are returned in order next to the new state. -/

/-- A call to an external function made by a task. -/
inductive Call where
  /-- The call `read(STDIN_FILENO, buffer, sizeof(buffer) - 1)`. -/
  | read
  /-- The call `atcmd_parse(&parser, buffer)` with the C string in `buffer`. -/
  | atcmd_parse (line : List Char)
  /-- The call `uart_get_byte(&byte)`. -/
  | uart_get_byte
  /-- The call `atcmd_detect_escape(NULL, byte)`. -/
  | atcmd_detect_escape (byte : Char)
  /-- The call `vTaskDelay(pdMS_TO_TICKS(ms))`. -/
  | vTaskDelay (ms : Nat)
deriving DecidableEq, Repr

/-- The C string stored in a character array: the characters before the first NUL. -/
def cString (buffer : List Char) : List Char := buffer.takeWhile (fun c => c ≠ '\x00')

/-- The loop `for (int i = 0; i < numBytesRead; ++i)` of `vUARTEchoTask`, started at
index `i` with the given number of iterations left: the first `'\n'` or `'\r'` found
is overwritten with NUL and the loop is left. -/
def trimLoop : Nat → Nat → List Char → List Char
  | 0, _, buffer => buffer
  | n + 1, i, buffer =>
    if buffer.getD i '\x00' = '\n' ∨ buffer.getD i '\x00' = '\r' then buffer.set i '\x00'
    else trimLoop n (i + 1) buffer

/-- The array `buffer` of `vUARTEchoTask` when `atcmd_parse` is called, after `read`
delivered the bytes `data` (`0 < numBytesRead = data.length`): `memset` to zero, the
received bytes at the front, `buffer[numBytesRead] = 0`, then the trimming loop. -/
def uartBuffer (data : List Char) : List Char :=
  let buffer := List.replicate 100 '\x00'
  let numBytesRead := data.length
  let buffer := data ++ buffer.drop numBytesRead
  let buffer := buffer.set numBytesRead '\x00'
  trimLoop numBytesRead 0 buffer

/-- One pass of the loop of `vUARTEchoTask`. `rx` is what `read` finds: `none` when it
fails (a negative result), otherwise the pending bytes, of which `read` delivers at
most `sizeof(buffer) - 1 = 99`. `atcmd_parse` is the effect of the external parser
on the state. -/
def vUARTEchoCycle (atcmd_parse : List Char → Sys → Sys) (rx : Option (List Char))
    (s : Sys) : Sys × List Call :=
  if s.isInCommandMode then
    let s := s.printf "> "
    match rx with
    | none => (s, [Call.read, Call.vTaskDelay 100])
    | some pending =>
      let data := pending.take 99
      let numBytesRead := data.length
      if 0 < numBytesRead then
        let line := cString (uartBuffer data)
        (atcmd_parse line s, [Call.read, Call.atcmd_parse line, Call.vTaskDelay 100])
      else
        (s, [Call.read, Call.vTaskDelay 100])
  else
    (s, [Call.vTaskDelay 100])

/-- One pass of the loop of `escapeSequenceTask`. `rx` is what `uart_get_byte` finds:
`some byte` when it returns 0 and stores `byte`, `none` when no byte is available.
`atcmd_detect_escape` is the answer of the external detector to the byte it is fed
(non-zero for a match). -/
def escapeSequenceCycle (atcmd_detect_escape : Char → Nat) (rx : Option Char)
    (s : Sys) : Sys × List Call :=
  if !s.isInCommandMode then
    match rx with
    | some byte =>
      if atcmd_detect_escape byte ≠ 0 then
        let s := { s with isInCommandMode := true }
        (s.printf "Entering Command Mode.\n",
          [Call.uart_get_byte, Call.atcmd_detect_escape byte, Call.vTaskDelay 10])
      else
        (s, [Call.uart_get_byte, Call.atcmd_detect_escape byte, Call.vTaskDelay 10])
    | none => (s, [Call.uart_get_byte, Call.vTaskDelay 10])
  else
    (s, [Call.vTaskDelay 10])

/-! ## The keypad entry loop of `vPIDTask` -/

/-- The locals `char input[16]` and `int index` of `vPIDTask`. -/
structure Entry where
  /-- The array `input`. -/
  input : List Char
  /-- The write index `index`. -/
  index : Nat
deriving DecidableEq, Repr

/-- The locals at the start of an entry: `index = 0; memset(input, 0, sizeof(input))`. -/
def Entry.init : Entry := { input := List.replicate 16 '\x00', index := 0 }

/-- The assignment `input[index] = c`: defined only for an index inside the array. -/
def store (input : List Char) (index : Nat) (c : Char) : Option (List Char) :=
  if index < input.length then some (input.set index c) else none

/-- The body of `while (key != '#')` for the key returned by `keypad_read()`. The
result is `none` when a write falls outside `input`; otherwise the new locals and
whether the loop is left by `break`. -/
def keyStep (e : Entry) (key : Char) : Option (Entry × Bool) :=
  if key ≠ '\x00' then
    let stored : Option Entry :=
      if (('0' ≤ key ∧ key ≤ '9') ∨ key = '*' ∨ key = '#') ∧ e.index < 15 then
        if key = '*' then
          (store e.input e.index '.').map (fun input => { input := input, index := e.index + 1 })
        else if '0' ≤ key ∧ key ≤ '9' then
          (store e.input e.index key).map (fun input => { input := input, index := e.index + 1 })
        else some e
      else some e
    stored.map (fun e' => (e', decide (key = '#')))
  else some (e, false)

/-- The loop `while (key != '#')` run on the keys `keypad_read()` returns, in order,
until `'#'` is read or the keys run out. -/
def entryLoop : Entry → List Char → Option Entry
  | e, [] => some e
  | e, key :: keys =>
    match keyStep e key with
    | none => none
    | some (e', true) => some e'
    | some (e', false) => entryLoop e' keys

/-- The characters the entry loop may store: a decimal digit or `'.'`. -/
def isEntryChar (c : Char) : Prop := ('0' ≤ c ∧ c ≤ '9') ∨ c = '.'

instance (c : Char) : Decidable (isEntryChar c) := by unfold isEntryChar; infer_instance

/-- A character that ends the C string handed to the parser: NUL or a line terminator. -/
def endsLine (c : Char) : Bool := c = '\x00' || c = '\n' || c = '\r'

/-- The invariant of the keypad entry loop: the write index is at most 15, the first
`index` cells of `input` hold digits or `'.'`, and every cell from `index` on is still
NUL, in an array of 16 cells. -/
def EntryInv (e : Entry) : Prop :=
  e.index ≤ 15 ∧ ∃ written : List Char, written.length = e.index ∧
    (∀ c ∈ written, isEntryChar c) ∧
    e.input = written ++ List.replicate (16 - e.index) '\x00'

/-- The number a string of decimal digits denotes. -/
def decimalValue (digits : List Char) : Nat :=
  digits.foldl (fun acc c => acc * 10 + digitVal c) 0

/-! ## Range of the integer conversions -/

theorem toInt32_range (v : Int) : INT_MIN ≤ toInt32 v ∧ toInt32 v ≤ INT_MAX := by
  unfold toInt32 INT_MIN INT_MAX
  omega

theorem toInt32_of_range (v : Int) (hlo : INT_MIN ≤ v) (hhi : v ≤ INT_MAX) : toInt32 v = v := by
  unfold toInt32
  unfold INT_MIN at hlo
  unfold INT_MAX at hhi
  omega

theorem atoi_range (a : List Char) : INT_MIN ≤ atoi a ∧ atoi a ≤ INT_MAX :=
  toInt32_range _

theorem toUInt32_range (v : Int) : 0 ≤ toUInt32 v ∧ toUInt32 v < 4294967296 := by
  unfold toUInt32
  omega

theorem toUInt32_of_neg (v : Int) (hlo : INT_MIN ≤ v) (hneg : v < 0) : 16 < toUInt32 v := by
  unfold toUInt32
  unfold INT_MIN at hlo
  omega

/-! ## The handlers and the mode flag -/

/-- C1: for every prior state and every handler argument (absent or any string),
`handleResume` sets `isInCommandMode` to false, returns 1, and leaves `g_passcode` and
`g_dutycycle` unchanged. -/
theorem handleResume_leaves_command_mode (cmdArgs : Option (List Char)) (s : Sys) :
    (handleResume cmdArgs s).2.isInCommandMode = false ∧
    (handleResume cmdArgs s).1 = 1 ∧
    (handleResume cmdArgs s).2.g_passcode = s.g_passcode ∧
    (handleResume cmdArgs s).2.g_dutycycle = s.g_dutycycle := by
  simp [handleResume, Sys.printf]

theorem handleResume_flag (cmdArgs : Option (List Char)) (s : Sys) :
    (handleResume cmdArgs s).2.isInCommandMode = false := by
  simp [handleResume, Sys.printf]

theorem handleHello_flag (cmdArgs : Option (List Char)) (s : Sys) :
    (handleHello cmdArgs s).2.isInCommandMode = s.isInCommandMode := by
  cases cmdArgs <;> simp [handleHello, Sys.printf]

theorem handlePasscode_flag (cmdArgs : Option (List Char)) (s : Sys) :
    (handlePasscode cmdArgs s).2.isInCommandMode = s.isInCommandMode := by
  simp [handlePasscode, Sys.printf]

theorem handlePasscodeChange_flag (cmdArgs : Option (List Char)) (s : Sys) :
    (handlePasscodeChange cmdArgs s).2.isInCommandMode = s.isInCommandMode := by
  cases cmdArgs with
  | none => simp [handlePasscodeChange, Sys.printf]
  | some a =>
    simp only [handlePasscodeChange]
    split <;> simp [Sys.printf]

theorem handleDutyCycleChange_none (s : Sys) :
    handleDutyCycleChange none s = (0, s.printf "No value provided.\n") := rfl

theorem handleDutyCycleChange_accept (a : List Char) (s : Sys) (h : toUInt32 (atoi a) ≤ 16) :
    handleDutyCycleChange (some a) s =
      (1, ({ s with g_dutycycle := toInt32 (toUInt32 (atoi a)) } : Sys).printf
        ("New Duty for PWM: " ++ toString (toUInt32 (atoi a)) ++ "\n")) := by
  unfold handleDutyCycleChange
  dsimp only
  rw [if_pos h]

theorem handleDutyCycleChange_reject (a : List Char) (s : Sys) (h : ¬ toUInt32 (atoi a) ≤ 16) :
    handleDutyCycleChange (some a) s = (0, s.printf "Duty cycle exceeds PWM period.\n") := by
  unfold handleDutyCycleChange
  dsimp only
  rw [if_neg h]

theorem handleDutyCycleChange_flag (cmdArgs : Option (List Char)) (s : Sys) :
    (handleDutyCycleChange cmdArgs s).2.isInCommandMode = s.isInCommandMode := by
  cases cmdArgs with
  | none => rfl
  | some a =>
    by_cases h : toUInt32 (atoi a) ≤ 16
    · rw [handleDutyCycleChange_accept a s h]
      rfl
    · rw [handleDutyCycleChange_reject a s h]
      rfl

theorem escapeSequenceCycle_keeps_command_mode (det : Char → Nat) (rx : Option Char) (s : Sys)
    (h : s.isInCommandMode = true) : escapeSequenceCycle det rx s = (s, [Call.vTaskDelay 10]) := by
  simp [escapeSequenceCycle, h]

theorem escapeSequenceCycle_enters_only_on_match (det : Char → Nat) (rx : Option Char) (s : Sys)
    (h : s.isInCommandMode = false)
    (h2 : (escapeSequenceCycle det rx s).1.isInCommandMode = true) :
    ∃ byte, rx = some byte ∧ det byte ≠ 0 := by
  cases rx with
  | none => simp [escapeSequenceCycle, h] at h2
  | some byte =>
    refine ⟨byte, rfl, ?_⟩
    intro h0
    simp [escapeSequenceCycle, h, h0] at h2

/-- C2: the handlers `handleHello`, `handlePasscode`, `handlePasscodeChange` and
`handleDutyCycleChange` leave `isInCommandMode` unchanged for every state and argument;
one pass of `escapeSequenceTask` never changes the flag from true to false and changes
it from false to true only when `uart_get_byte` delivered a byte for which
`atcmd_detect_escape` reports a match (and then it does); so among the handlers of the
table only the one named `RESUME` can change the flag, and only to false. -/
theorem mode_flag_two_writers (cmdArgs : Option (List Char)) (s : Sys)
    (det : Char → Nat) (rx : Option Char) :
    (handleHello cmdArgs s).2.isInCommandMode = s.isInCommandMode ∧
    (handlePasscode cmdArgs s).2.isInCommandMode = s.isInCommandMode ∧
    (handlePasscodeChange cmdArgs s).2.isInCommandMode = s.isInCommandMode ∧
    (handleDutyCycleChange cmdArgs s).2.isInCommandMode = s.isInCommandMode ∧
    (s.isInCommandMode = true → (escapeSequenceCycle det rx s).1.isInCommandMode = true) ∧
    (s.isInCommandMode = false → (escapeSequenceCycle det rx s).1.isInCommandMode = true →
      ∃ byte, rx = some byte ∧ det byte ≠ 0) ∧
    (∀ byte, s.isInCommandMode = false → rx = some byte → det byte ≠ 0 →
      (escapeSequenceCycle det rx s).1.isInCommandMode = true) ∧
    (∀ e ∈ commands, (e.handler cmdArgs s).2.isInCommandMode ≠ s.isInCommandMode →
      e.name = "RESUME".toList ∧ (e.handler cmdArgs s).2.isInCommandMode = false) := by
  refine ⟨handleHello_flag _ _, handlePasscode_flag _ _, handlePasscodeChange_flag _ _,
    handleDutyCycleChange_flag _ _, ?_, escapeSequenceCycle_enters_only_on_match det rx s, ?_, ?_⟩
  · intro h
    rw [escapeSequenceCycle_keeps_command_mode det rx s h]
    exact h
  · intro byte h hrx hdet
    subst hrx
    simp [escapeSequenceCycle, h, hdet, Sys.printf]
  · intro e he hne
    simp only [commands, List.mem_cons, List.mem_singleton, List.not_mem_nil, or_false] at he
    rcases he with rfl | rfl | rfl | rfl | rfl
    · exact ⟨rfl, handleResume_flag cmdArgs s⟩
    · exact absurd (handleHello_flag cmdArgs s) hne
    · exact absurd (handlePasscode_flag cmdArgs s) hne
    · exact absurd (handlePasscodeChange_flag cmdArgs s) hne
    · exact absurd (handleDutyCycleChange_flag cmdArgs s) hne

/-- C3: in every state, one pass of `escapeSequenceTask` calls `uart_get_byte` (and
feeds `atcmd_detect_escape`) only if `isInCommandMode` is false, and one pass of
`vUARTEchoTask` calls `read` (and `atcmd_parse`) only if `isInCommandMode` is true;
hence in no state do both tasks consume serial input, while the task the flag selects
does poll its input. -/
theorem mode_flag_gates_serial_input (atcmd_parse : List Char → Sys → Sys)
    (det : Char → Nat) (rxLine : Option (List Char)) (rxByte : Option Char) (s : Sys) :
    (Call.uart_get_byte ∈ (escapeSequenceCycle det rxByte s).2 → s.isInCommandMode = false) ∧
    (∀ b, Call.atcmd_detect_escape b ∈ (escapeSequenceCycle det rxByte s).2 →
      s.isInCommandMode = false) ∧
    (Call.read ∈ (vUARTEchoCycle atcmd_parse rxLine s).2 → s.isInCommandMode = true) ∧
    (∀ l, Call.atcmd_parse l ∈ (vUARTEchoCycle atcmd_parse rxLine s).2 →
      s.isInCommandMode = true) ∧
    ¬ (Call.uart_get_byte ∈ (escapeSequenceCycle det rxByte s).2 ∧
       Call.read ∈ (vUARTEchoCycle atcmd_parse rxLine s).2) ∧
    (s.isInCommandMode = false → Call.uart_get_byte ∈ (escapeSequenceCycle det rxByte s).2) ∧
    (s.isInCommandMode = true → Call.read ∈ (vUARTEchoCycle atcmd_parse rxLine s).2) := by
  cases hm : s.isInCommandMode with
  | true =>
    have he : (escapeSequenceCycle det rxByte s).2 = [Call.vTaskDelay 10] := by
      rw [escapeSequenceCycle_keeps_command_mode det rxByte s hm]
    have hr : Call.read ∈ (vUARTEchoCycle atcmd_parse rxLine s).2 := by
      cases rxLine with
      | none => simp [vUARTEchoCycle, hm]
      | some pending =>
        by_cases hpos : 0 < (pending.take 99).length
        · simp only [vUARTEchoCycle, hm, if_true, hpos]
          simp
        · simp only [vUARTEchoCycle, hm, if_true, hpos, if_false]
          simp
    simp [he, hr]
  | false =>
    have hu : (vUARTEchoCycle atcmd_parse rxLine s).2 = [Call.vTaskDelay 100] := by
      simp [vUARTEchoCycle, hm]
    have hb : Call.uart_get_byte ∈ (escapeSequenceCycle det rxByte s).2 := by
      cases rxByte with
      | none => simp [escapeSequenceCycle, hm]
      | some byte =>
        by_cases hd : det byte = 0 <;> simp [escapeSequenceCycle, hm, hd]
    simp [hu, hb]

/-- C4: `handleDutyCycleChange` returns 1 exactly when the argument is present and
`atoi` of it, converted to `uint32_t`, is at most 16; on success `g_dutycycle` equals
that value; otherwise the result is 0 and `g_dutycycle` is unchanged; a negative
parsed value wraps above 16 and is rejected; the argument `"12"` gives duty 12. -/
theorem handleDutyCycleChange_spec (cmdArgs : Option (List Char)) (s : Sys) :
    ((handleDutyCycleChange cmdArgs s).1 = 1 ↔
      ∃ a, cmdArgs = some a ∧ toUInt32 (atoi a) ≤ 16) ∧
    (∀ a, cmdArgs = some a → toUInt32 (atoi a) ≤ 16 →
      (handleDutyCycleChange cmdArgs s).2.g_dutycycle = toUInt32 (atoi a)) ∧
    ((handleDutyCycleChange cmdArgs s).1 ≠ 1 →
      (handleDutyCycleChange cmdArgs s).1 = 0 ∧
      (handleDutyCycleChange cmdArgs s).2.g_dutycycle = s.g_dutycycle) ∧
    (∀ a, cmdArgs = some a → atoi a < 0 → (handleDutyCycleChange cmdArgs s).1 = 0) ∧
    (handleDutyCycleChange (some "12".toList) s).1 = 1 ∧
    (handleDutyCycleChange (some "12".toList) s).2.g_dutycycle = 12 := by
  have h12 : toUInt32 (atoi "12".toList) = 12 := by decide
  have h12le : toUInt32 (atoi "12".toList) ≤ 16 := by rw [h12]; decide
  have hstore : ∀ a, toUInt32 (atoi a) ≤ 16 → toInt32 (toUInt32 (atoi a)) = toUInt32 (atoi a) := by
    intro a h
    have h0 := (toUInt32_range (atoi a)).1
    apply toInt32_of_range
    · unfold INT_MIN; omega
    · unfold INT_MAX; omega
  refine ⟨?_, ?_, ?_, ?_, ?_, ?_⟩
  · cases cmdArgs with
    | none =>
      rw [handleDutyCycleChange_none]
      simp
    | some a =>
      by_cases h : toUInt32 (atoi a) ≤ 16
      · rw [handleDutyCycleChange_accept a s h]
        exact ⟨fun _ => ⟨a, rfl, h⟩, fun _ => rfl⟩
      · rw [handleDutyCycleChange_reject a s h]
        constructor
        · intro h1
          exact absurd h1 Nat.zero_ne_one
        · rintro ⟨b, hb, hle⟩
          cases hb
          exact absurd hle h
  · intro a ha h
    subst ha
    rw [handleDutyCycleChange_accept a s h]
    exact hstore a h
  · cases cmdArgs with
    | none =>
      intro _
      rw [handleDutyCycleChange_none]
      exact ⟨rfl, rfl⟩
    | some a =>
      by_cases h : toUInt32 (atoi a) ≤ 16
      · rw [handleDutyCycleChange_accept a s h]
        intro h1
        exact absurd rfl h1
      · rw [handleDutyCycleChange_reject a s h]
        intro _
        exact ⟨rfl, rfl⟩
  · intro a ha hneg
    subst ha
    have h := toUInt32_of_neg (atoi a) (atoi_range a).1 hneg
    rw [handleDutyCycleChange_reject a s (by omega)]
  · rw [handleDutyCycleChange_accept _ s h12le]
  · rw [handleDutyCycleChange_accept _ s h12le]
    show toInt32 (toUInt32 (atoi "12".toList)) = 12
    rw [hstore _ h12le, h12]

/-! ## Line trimming in `vUARTEchoTask` -/

theorem getD_append_cons (pre : List Char) (c : Char) (r : List Char) :
    (pre ++ c :: r).getD pre.length '\x00' = c := by
  rw [List.getD_eq_getElem?_getD, List.getElem?_append_right (le_refl _)]
  simp

theorem trimLoop_append (body : List Char) :
    ∀ (pre tail : List Char), ∃ rest,
      trimLoop body.length pre.length (pre ++ (body ++ '\x00' :: tail)) = pre ++ rest ∧
      cString rest = body.takeWhile (fun c => !endsLine c) := by
  induction body with
  | nil =>
    intro pre tail
    exact ⟨'\x00' :: tail, by simp [trimLoop], by simp [cString]⟩
  | cons c cs ih =>
    intro pre tail
    by_cases hc : c = '\n' ∨ c = '\r'
    · refine ⟨'\x00' :: (cs ++ '\x00' :: tail), ?_, ?_⟩
      · simp only [List.length_cons, trimLoop, List.cons_append, getD_append_cons, hc, if_true]
        simp
      · rcases hc with rfl | rfl <;> simp [cString, endsLine]
    · obtain ⟨rest, h1, h2⟩ := ih (pre ++ [c]) tail
      refine ⟨c :: rest, ?_, ?_⟩
      · simp only [List.length_cons, trimLoop, List.cons_append, getD_append_cons, hc, if_false]
        simp only [List.length_append, List.length_singleton, List.append_assoc,
          List.singleton_append] at h1
        exact h1
      · have hn : c ≠ '\n' := fun h => hc (Or.inl h)
        have hr : c ≠ '\r' := fun h => hc (Or.inr h)
        by_cases h0 : c = '\x00'
        · subst h0
          simp [cString, endsLine]
        · have : cString (c :: rest) = c :: cString rest := by
            simp [cString, List.takeWhile_cons, h0]
          rw [this, h2]
          simp [List.takeWhile_cons, endsLine, h0, hn, hr]

theorem cString_uartBuffer (data : List Char) (h : data.length ≤ 99) :
    cString (uartBuffer data) = data.takeWhile (fun c => !endsLine c) := by
  have hdrop : (List.replicate 100 '\x00').drop data.length
      = '\x00' :: List.replicate (99 - data.length) '\x00' := by
    rw [List.drop_replicate]
    have : 100 - data.length = (99 - data.length) + 1 := by omega
    rw [this, List.replicate_succ]
  obtain ⟨rest, h1, h2⟩ := trimLoop_append data [] (List.replicate (99 - data.length) '\x00')
  simp only [List.length_nil, List.nil_append] at h1
  have hbuf : uartBuffer data = rest := by
    simp only [uartBuffer, hdrop]
    rw [← h1]
    congr 1
    simp
  rw [hbuf, h2]

theorem takeWhile_append_trail (body trail : List Char)
    (hbody : ∀ c ∈ body, c ≠ '\n' ∧ c ≠ '\r') (htrail : ∀ c ∈ trail, c = '\n' ∨ c = '\r') :
    (body ++ trail).takeWhile (fun c => !endsLine c) = cString body := by
  induction body with
  | nil =>
    cases trail with
    | nil => simp [cString]
    | cons t ts =>
      rcases htrail t (List.mem_cons_self _ _) with rfl | rfl <;> simp [cString, endsLine]
  | cons c cs ih =>
    have hc := hbody c (List.mem_cons_self _ _)
    have ih' := ih (fun d hd => hbody d (List.mem_cons_of_mem _ hd))
    by_cases h0 : c = '\x00'
    · subst h0
      simp [cString, endsLine]
    · have : cString (c :: cs) = c :: cString cs := by
        simp [cString, List.takeWhile_cons, h0]
      rw [this, ← ih']
      simp [List.takeWhile_cons, endsLine, h0, hc.1, hc.2]

theorem cString_of_no_nul (body : List Char) (h : ∀ c ∈ body, c ≠ '\x00') :
    cString body = body := by
  unfold cString
  rw [List.takeWhile_eq_self_iff]
  intro c hc
  simpa using h c hc

theorem not_mem_takeWhile_endsLine (data : List Char) (c : Char) (hc : endsLine c = true) :
    c ∉ data.takeWhile (fun c => !endsLine c) := by
  intro hmem
  have := List.mem_takeWhile_imp hmem
  simp [hc] at this

/-- C7: when `read` delivers 1 to 99 bytes in command mode, `vUARTEchoTask` calls
`atcmd_parse` once, and every string it passes to `atcmd_parse` contains neither
`'\n'` nor `'\r'`; when the received bytes are a line without terminators followed by
a run of terminators only, the passed string is the C string of that line, which is
the line itself when it contains no NUL byte. -/
theorem vUARTEchoTask_strips_terminators (atcmd_parse : List Char → Sys → Sys) (s : Sys)
    (rx : List Char) (h1 : 1 ≤ rx.length) (h99 : rx.length ≤ 99) :
    (s.isInCommandMode = true →
      (vUARTEchoCycle atcmd_parse (some rx) s).2 =
        [Call.read, Call.atcmd_parse (cString (uartBuffer rx)), Call.vTaskDelay 100]) ∧
    (∀ line, Call.atcmd_parse line ∈ (vUARTEchoCycle atcmd_parse (some rx) s).2 →
      '\n' ∉ line ∧ '\r' ∉ line ∧
      ∀ body trail, rx = body ++ trail →
        (∀ c ∈ body, c ≠ '\n' ∧ c ≠ '\r') → (∀ c ∈ trail, c = '\n' ∨ c = '\r') →
        line = cString body ∧ ((∀ c ∈ body, c ≠ '\x00') → line = body)) := by
  have htake : rx.take 99 = rx := List.take_of_length_le h99
  have hpos : 0 < rx.length := h1
  have hcall : s.isInCommandMode = true →
      (vUARTEchoCycle atcmd_parse (some rx) s).2 =
        [Call.read, Call.atcmd_parse (cString (uartBuffer rx)), Call.vTaskDelay 100] := by
    intro hm
    simp [vUARTEchoCycle, hm, htake, hpos]
  refine ⟨hcall, ?_⟩
  intro line hline
  have hl : line = cString (uartBuffer rx) := by
    cases hm : s.isInCommandMode with
    | true =>
      rw [hcall hm] at hline
      simpa using hline
    | false =>
      simp [vUARTEchoCycle, hm] at hline
  rw [hl, cString_uartBuffer rx h99]
  refine ⟨not_mem_takeWhile_endsLine rx _ (by decide),
    not_mem_takeWhile_endsLine rx _ (by decide), ?_⟩
  intro body trail hrx hbody htrail
  subst hrx
  have hb := takeWhile_append_trail body trail hbody htrail
  exact ⟨hb, fun h0 => by rw [hb, cString_of_no_nul body h0]⟩

/-- Witness of C7 at the received bytes `DUTY=12\r\n`: the parser is handed `DUTY=12`. -/
theorem vUARTEchoTask_strips_terminators_witness :
    (vUARTEchoCycle (fun _ t => t) (some "DUTY=12\r\n".toList)
        { Sys.init with isInCommandMode := true }).2 =
      [Call.read, Call.atcmd_parse "DUTY=12".toList, Call.vTaskDelay 100] ∧
    '\n' ∉ "DUTY=12".toList ∧ '\r' ∉ "DUTY=12".toList := by
  have h := vUARTEchoTask_strips_terminators (fun _ t => t)
    { Sys.init with isInCommandMode := true } "DUTY=12\r\n".toList (by decide) (by decide)
  have hline : cString (uartBuffer "DUTY=12\r\n".toList) = "DUTY=12".toList := by decide
  have hcall := h.1 rfl
  rw [hline] at hcall
  have hmem := h.2 "DUTY=12".toList (by rw [hcall]; simp)
  exact ⟨hcall, hmem.1, hmem.2.1⟩

/-! ## The passcode handlers -/

theorem handlePasscodeChange_rejects (cmdArgs : Option (List Char)) (s : Sys)
    (h : ∀ a, cmdArgs = some a → 12 < strlen a) :
    (handlePasscodeChange cmdArgs s).1 = 0 ∧
    (handlePasscodeChange cmdArgs s).2.g_passcode = s.g_passcode := by
  cases cmdArgs with
  | none => simp [handlePasscodeChange, Sys.printf]
  | some a =>
    have h' : ¬ strlen a ≤ 12 := by have := h a rfl; omega
    simp [handlePasscodeChange, h', Sys.printf]

theorem handlePasscodeChange_accepts (a : List Char) (s : Sys) (h : strlen a ≤ 12) :
    (handlePasscodeChange (some a) s).1 = 1 ∧
    (handlePasscodeChange (some a) s).2.g_passcode = atoi a := by
  simp [handlePasscodeChange, h, Sys.printf]

/-- C5: evaluation at the argument `"abc"`, which is no string of digits: starting from
the initial state (passcode 349) `handlePasscodeChange` returns 1 and overwrites
`g_passcode` with 0, where the claim requires the result 0 and an unchanged passcode. -/
theorem handlePasscodeChange_accepts_non_digits :
    (∀ c ∈ "abc".toList, isdigit c = false) ∧
    (handlePasscodeChange (some "abc".toList) Sys.init).1 = 1 ∧
    (handlePasscodeChange (some "abc".toList) Sys.init).2.g_passcode = 0 ∧
    Sys.init.g_passcode = 349 := by
  decide

theorem isdigit_not_isspace (c : Char) (h : isdigit c = true) : isspace c = false := by
  by_contra hs
  simp only [isspace, Bool.or_eq_true, decide_eq_true_eq, Bool.not_eq_false] at hs
  rcases hs with ((((rfl | rfl) | rfl) | rfl) | rfl) | rfl <;> revert h <;> decide

theorem accDigits_of_digits (digits : List Char) (h : ∀ c ∈ digits, isdigit c = true) :
    ∀ acc, accDigits acc digits = digits.foldl (fun acc c => acc * 10 + digitVal c) acc := by
  induction digits with
  | nil => intro acc; rfl
  | cons c cs ih =>
    intro acc
    have hc := h c (List.mem_cons_self _ _)
    simp only [accDigits, hc, if_true, List.foldl_cons]
    exact ih (fun d hd => h d (List.mem_cons_of_mem _ hd)) _

theorem strtol_of_digits (digits : List Char) (hne : digits ≠ [])
    (h : ∀ c ∈ digits, isdigit c = true) :
    strtol digits = clampLong (Int.ofNat (decimalValue digits)) := by
  cases digits with
  | nil => exact absurd rfl hne
  | cons c cs =>
    have hc := h c (List.mem_cons_self _ _)
    have hdrop : (c :: cs).dropWhile isspace = c :: cs := by
      simp [List.dropWhile_cons, isdigit_not_isspace c hc]
    have hminus : c ≠ '-' := by rintro rfl; revert hc; decide
    have hplus : c ≠ '+' := by rintro rfl; revert hc; decide
    unfold strtol
    rw [hdrop]
    split
    · rename_i heq
      exact absurd (List.cons.inj heq).1 hminus
    · rename_i heq
      exact absurd (List.cons.inj heq).1 hplus
    · rw [accDigits_of_digits _ h 0]
      rfl

/-- Digits that denote a value inside `int` are stored exactly: the part of the
12-digit promise of `handlePasscodeChange` that the 32-bit `g_passcode` can keep. -/
theorem handlePasscodeChange_stores_value (digits : List Char) (s : Sys)
    (hne : digits ≠ []) (hlen : digits.length ≤ 12)
    (hdig : ∀ c ∈ digits, isdigit c = true) (hfit : Int.ofNat (decimalValue digits) ≤ INT_MAX) :
    (handlePasscodeChange (some digits) s).1 = 1 ∧
    (handlePasscodeChange (some digits) s).2.g_passcode = Int.ofNat (decimalValue digits) := by
  have hacc := handlePasscodeChange_accepts digits s hlen
  refine ⟨hacc.1, ?_⟩
  rw [hacc.2]
  unfold atoi
  rw [strtol_of_digits digits hne hdig]
  have hlo : INT_MIN ≤ Int.ofNat (decimalValue digits) := by
    unfold INT_MIN
    have : (0 : Int) ≤ Int.ofNat (decimalValue digits) := Int.ofNat_nonneg _
    omega
  have hclamp : clampLong (Int.ofNat (decimalValue digits)) = Int.ofNat (decimalValue digits) := by
    unfold clampLong
    rw [if_neg (by omega), if_neg (by omega)]
  rw [hclamp]
  exact toInt32_of_range _ hlo hfit

/-- C9: evaluation at the 12-digit argument `"999999999999"`: `handlePasscodeChange`
returns 1, yet the 32-bit `g_passcode` holds the saturated result 2147483647 of `atoi`
(no `int` can hold more), not the number 999999999999 the digits denote. -/
theorem handlePasscodeChange_overflows :
    (handlePasscodeChange (some "999999999999".toList) Sys.init).1 = 1 ∧
    (handlePasscodeChange (some "999999999999".toList) Sys.init).2.g_passcode = 2147483647 ∧
    decimalValue "999999999999".toList = 999999999999 ∧
    (handlePasscodeChange (some "999999999999".toList) Sys.init).2.g_passcode
      ≠ Int.ofNat (decimalValue "999999999999".toList) := by
  decide

/-! ## The command table -/

/-- C6, as stated, fails: the entry the lookup of `PASSCODE` selects does not return
success on an absent argument in every state. -/
theorem lookup_PASSCODE_absent_not_success :
    ¬ ∃ e, lookup "PASSCODE".toList commands = some e ∧
      ∀ s : Sys, (e.handler none s).1 = 1 ∧ (e.handler none s).2.g_passcode = s.g_passcode := by
  rintro ⟨e, he, hs⟩
  have hl : lookup "PASSCODE".toList commands
      = some { name := "PASSCODE".toList, handler := handlePasscodeChange } := by
    simp [lookup, commands, sameName]
  rw [hl] at he
  cases he
  have := (hs Sys.init).1
  revert this
  decide

/-- C6, amended: the lookup of the name `PASSCODE` selects the entry of
`handlePasscodeChange`, which on an absent argument returns 0 and leaves `g_passcode`
unchanged; the handler that reads the value is selected by the name `PASSCODE?`, and
for every argument it returns 1, prints `g_passcode` and leaves it unchanged. -/
theorem lookup_PASSCODE_selects_change_handler :
    (∃ e, lookup "PASSCODE".toList commands = some e ∧ e.name = "PASSCODE".toList ∧
      e.handler = handlePasscodeChange ∧
      ∀ s : Sys, (e.handler none s).1 = 0 ∧ (e.handler none s).2.g_passcode = s.g_passcode) ∧
    (∃ q, lookup "PASSCODE?".toList commands = some q ∧ q.name = "PASSCODE?".toList ∧
      q.handler = handlePasscode ∧
      ∀ (cmdArgs : Option (List Char)) (s : Sys), (q.handler cmdArgs s).1 = 1 ∧
        (q.handler cmdArgs s).2.g_passcode = s.g_passcode ∧
        (q.handler cmdArgs s).2.out
          = s.out ++ ["Current passcode: " ++ toString s.g_passcode ++ "\n"]) := by
  refine ⟨⟨{ name := "PASSCODE".toList, handler := handlePasscodeChange }, ?_, rfl, rfl, ?_⟩,
    ⟨{ name := "PASSCODE?".toList, handler := handlePasscode }, ?_, rfl, rfl, ?_⟩⟩
  · simp [lookup, commands, sameName]
  · intro s
    simp [handlePasscodeChange, Sys.printf]
  · simp [lookup, commands, sameName]
  · intro cmdArgs s
    simp [handlePasscode, Sys.printf]

/-- C8: no two entries of `commands` have the same name under case-insensitive
comparison, and every entry's name is a non-empty string of ASCII characters none of
which is white space. -/
theorem commands_names_distinct_wellformed :
    (commands.map atcmd_t.name).Pairwise (fun a b => sameName a b = false) ∧
    ∀ e ∈ commands, e.name ≠ [] ∧ ∀ c ∈ e.name, c.toNat < 128 ∧ isspace c = false := by
  constructor
  · simp only [commands, List.map]
    decide
  · intro e he
    simp only [commands, List.mem_cons, List.mem_singleton, List.not_mem_nil, or_false] at he
    rcases he with rfl | rfl | rfl | rfl | rfl <;> decide

/-! ## The keypad entry loop -/

theorem store_in_bounds (e : Entry) (c : Char) (hc : isEntryChar c) (h : EntryInv e)
    (hlt : e.index < 15) :
    ∃ input, store e.input e.index c = some input ∧
      EntryInv { input := input, index := e.index + 1 } := by
  obtain ⟨_, written, hlen, hall, hin⟩ := h
  have hrep : List.replicate (16 - e.index) '\x00'
      = '\x00' :: List.replicate (16 - (e.index + 1)) '\x00' := by
    have : 16 - e.index = (16 - (e.index + 1)) + 1 := by omega
    rw [this, List.replicate_succ]
  have hlenin : e.input.length = 16 := by
    rw [hin]; simp; omega
  refine ⟨e.input.set e.index c, ?_, ?_, written ++ [c], ?_, ?_, ?_⟩
  · simp [store, hlenin]; omega
  · show e.index + 1 ≤ 15
    omega
  · simp [hlen]
  · intro d hd
    rcases List.mem_append.1 hd with h1 | h1
    · exact hall d h1
    · simp at h1; subst h1; exact hc
  · show e.input.set e.index c = _
    rw [hin, hrep, ← hlen]
    simp

theorem keyStep_inv (e : Entry) (key : Char) (h : EntryInv e) :
    ∃ e' b, keyStep e key = some (e', b) ∧ EntryInv e' := by
  unfold keyStep
  by_cases hk : key ≠ '\x00'
  · rw [if_pos hk]
    by_cases hcond : (('0' ≤ key ∧ key ≤ '9') ∨ key = '*' ∨ key = '#') ∧ e.index < 15
    · rw [if_pos hcond]
      by_cases hstar : key = '*'
      · obtain ⟨input, hs, hinv⟩ := store_in_bounds e '.' (Or.inr rfl) h hcond.2
        rw [if_pos hstar, hs]
        exact ⟨_, _, rfl, hinv⟩
      · rw [if_neg hstar]
        by_cases hdig : '0' ≤ key ∧ key ≤ '9'
        · obtain ⟨input, hs, hinv⟩ := store_in_bounds e key (Or.inl hdig) h hcond.2
          rw [if_pos hdig, hs]
          exact ⟨_, _, rfl, hinv⟩
        · rw [if_neg hdig]
          exact ⟨e, _, rfl, h⟩
    · rw [if_neg hcond]
      exact ⟨e, _, rfl, h⟩
  · rw [if_neg hk]
    exact ⟨e, false, rfl, h⟩

theorem entryLoop_inv (keys : List Char) :
    ∀ e, EntryInv e → ∃ e', entryLoop e keys = some e' ∧ EntryInv e' := by
  induction keys with
  | nil => intro e h; exact ⟨e, rfl, h⟩
  | cons key keys ih =>
    intro e h
    obtain ⟨e', b, hstep, hinv⟩ := keyStep_inv e key h
    cases b with
    | true => exact ⟨e', by simp [entryLoop, hstep], hinv⟩
    | false =>
      obtain ⟨e'', hloop, hinv'⟩ := ih e' hinv
      exact ⟨e'', by simp [entryLoop, hstep, hloop], hinv'⟩

theorem EntryInv_init : EntryInv Entry.init :=
  ⟨by decide, [], rfl, by simp, by simp [Entry.init]⟩

theorem isEntryChar_ne_nul (c : Char) (h : isEntryChar c) : c ≠ '\x00' := by
  rintro rfl
  revert h
  decide

/-- C10: for every sequence of keys read, the keypad entry loop of `vPIDTask` performs
only writes inside the 16-byte array `input` (the run is defined), the write index
ends at most 15, `input[15]` is still NUL, the C string in `input` is exactly the
`index` characters written, and the array holds only NUL, `'0'..'9'` and `'.'`, never
`'*'`. -/
theorem entryLoop_safe (keys : List Char) :
    ∃ e, entryLoop Entry.init keys = some e ∧
      e.index ≤ 15 ∧ e.input.length = 16 ∧ e.input.getD 15 '.' = '\x00' ∧
      cString e.input = e.input.take e.index ∧
      (∀ c ∈ cString e.input, isEntryChar c) ∧
      (∀ c ∈ e.input, c = '\x00' ∨ isEntryChar c) ∧ '*' ∉ e.input := by
  obtain ⟨e, hloop, hidx, written, hlen, hall, hin⟩ := entryLoop_inv keys Entry.init EntryInv_init
  have hmem : ∀ c ∈ e.input, c = '\x00' ∨ isEntryChar c := by
    intro c hc
    rw [hin] at hc
    rcases List.mem_append.1 hc with h1 | h1
    · exact Or.inr (hall c h1)
    · exact Or.inl (List.eq_of_mem_replicate h1)
  have hrep : List.replicate (16 - e.index) '\x00'
      = '\x00' :: List.replicate (15 - e.index) '\x00' := by
    have : 16 - e.index = (15 - e.index) + 1 := by omega
    rw [this, List.replicate_succ]
  have hcs : cString e.input = written := by
    rw [hin, hrep]
    unfold cString
    rw [List.takeWhile_append_of_pos]
    · simp
    · intro c hc
      simpa using isEntryChar_ne_nul c (hall c hc)
  have htake : e.input.take e.index = written := by
    rw [hin, ← hlen]
    simp
  refine ⟨e, hloop, hidx, ?_, ?_, ?_, ?_, hmem, ?_⟩
  · rw [hin]; simp; omega
  · rw [hin, List.getD_eq_getElem?_getD, List.getElem?_append_right (by omega)]
    rw [List.getElem?_replicate]
    have : 15 - written.length < 16 - e.index := by omega
    simp [this]
  · rw [hcs, htake]
  · rw [hcs]; exact hall
  · intro hstar
    rcases hmem _ hstar with h | h
    · revert h; decide
    · revert h; decide

/-! ## Evaluation of the model on concrete inputs -/

theorem atoi_examples :
    atoi "12".toList = 12 ∧ atoi "  -7x".toList = -7 ∧ atoi "+16".toList = 16 ∧
    atoi "abc".toList = 0 ∧ atoi "".toList = 0 ∧ atoi "-99999999999".toList = -2147483648 := by
  decide

theorem entryLoop_example :
    (entryLoop Entry.init "12*5#9".toList).map (fun e => (cString e.input, e.index))
      = some ("12.5".toList, 4) := by
  decide

theorem entryLoop_full_example :
    (entryLoop Entry.init "1234567890123456789".toList).map (fun e => (cString e.input, e.index))
      = some ("123456789012345".toList, 15) := by
  decide

theorem handlers_example :
    (handleDutyCycleChange (some "17".toList) Sys.init).1 = 0 ∧
    (handleDutyCycleChange (some "-1".toList) Sys.init).1 = 0 ∧
    (handleDutyCycleChange (some "0".toList) Sys.init).2.g_dutycycle = 0 ∧
    (handleResume none { Sys.init with isInCommandMode := true }).2.isInCommandMode = false := by
  decide

end MotorControl
